import Mathlib

/-!
Verification of the product-image matching core of `app1.py`.

The Python program matches product photographs to inventory records:
inventory rows get a derived `search_terms` blob, an external labeling
service produces (name, confidence) labels per image, images are
dispatched in contiguous batches, and a scoring engine compares each
image label list against each product search text, keeping the best
strictly-improving score.

Strings are modelled as Lean `String` (a wrapper around `List Char`);
all text operations are written over `.data` so that they reduce in the
kernel. Python floats are modelled as rationals `ℚ`: the claims are
about the exact arithmetic formula of the scoring engine.
-/

/-- Python `str.lower()` restricted to the ASCII mapping of `Char.toLower`. -/
def lowerStr (s : String) : String := ⟨s.data.map Char.toLower⟩

/-- Python `needle in hay` substring containment on strings. -/
def containsSub (needle hay : String) : Bool :=
  hay.data.tails.any (fun t => needle.data.isPrefixOf t)

/-- Python `s.endswith(suf)`. -/
def endsWithStr (suf s : String) : Bool := suf.data.isSuffixOf s.data

/-- One step of splitting a character list on whitespace (used right-to-left). -/
def addWChar (c : Char) (acc : List (List Char)) : List (List Char) :=
  if c.isWhitespace then [] :: acc
  else
    match acc with
    | [] => [[c]]
    | w :: ws => (c :: w) :: ws

/-- Python `s.split()`: split on runs of whitespace, discarding empty pieces. -/
def pySplit (s : String) : List String :=
  ((s.data.foldr addWChar []).filter (fun w => !w.isEmpty)).map (fun w => ⟨w⟩)

/-- Python `sep.join(parts)`. -/
def joinSep (sep : String) : List String → String
  | [] => ""
  | [x] => x
  | x :: y :: rest => x ++ sep ++ joinSep sep (y :: rest)

/-- A detected label from the labeling service: `Name` and `Confidence` (0-100). -/
structure DetectedLabel where
  name : String
  confidence : ℚ
deriving DecidableEq

/-- Inner loop of `calculate_match_score`: the partial-word rule for one word
of the lowered label name. `st` is the already-lowered search text. -/
def scoreWordsStep (st : String) (conf : ℚ) (lname : String)
    (a : ℚ × List String) (w : String) : ℚ × List String :=
  if 3 < w.length && containsSub w st then
    (a.1 + conf * (1/2), if a.2.contains lname then a.2 else a.2 ++ [lname])
  else a

/-- Body of the `for label in labels` loop of `calculate_match_score`:
exact-phrase rule, then the partial-word rule over the split words.
`st` is the already-lowered search text. -/
def scoreStep (st : String) (acc : ℚ × List String) (lab : DetectedLabel) :
    ℚ × List String :=
  let lname := lowerStr lab.name
  let conf := lab.confidence / 100
  let acc1 :=
    if containsSub lname st then (acc.1 + conf * (3/2), acc.2 ++ [lname]) else acc
  (pySplit lname).foldl (scoreWordsStep st conf lname) acc1

/-- `calculate_match_score(labels, search_terms)` from `app1.py`: lowers the
search terms once, then folds the per-label scoring step, returning the
accumulated score and the list of matched label names. -/
def calculate_match_score (labels : List DetectedLabel) (search_terms : String) :
    ℚ × List String :=
  labels.foldl (scoreStep (lowerStr search_terms)) (0, [])

/-- A processed inventory row as the matcher reads it: `product_id`, `name`,
and the derived `search_terms` column. -/
structure Product where
  product_id : String
  name : String
  search_terms : String
deriving DecidableEq

/-- One inventory row of the inner scan of `match_images_to_products`:
replace the current best only on a strict score increase
(`score > best_score`). -/
def bestStep (labels : List DetectedLabel)
    (acc : ℚ × Option Product × List String) (row : Product) :
    ℚ × Option Product × List String :=
  let r := calculate_match_score labels row.search_terms
  if r.1 > acc.1 then (r.1, some row, r.2) else acc

/-- The inner scan of `match_images_to_products`: fold over the inventory
keeping `(best_score, best_match, best_matched_labels)`, starting from
`(0, None, [])`. -/
def findBest (labels : List DetectedLabel) (inv : List Product) :
    ℚ × Option Product × List String :=
  inv.foldl (bestStep labels) (0, none, [])

/-- A row of the matched table (`matches.append` in `app1.py`), with
`matched_labels` joined by `", "` as the code does. -/
structure MatchedRec where
  image_path : String
  product_id : String
  product_name : String
  confidence : ℚ
  matched_labels : String
deriving DecidableEq

/-- A row of the unmatched table. The code emits two dict shapes: the
no-labels shape carries only the path and reason; the low-confidence shape
carries the optional best candidate id and name, the score, and the joined
matched labels. -/
inductive UnmatchedRec where
  | noLabels (image_path : String) (reason : String)
  | lowConf (image_path : String) (best_match_id best_match_name : Option String)
      (confidence : ℚ) (matched_labels : String) (reason : String)
deriving DecidableEq

/-- The image path recorded in an unmatched row. -/
def UnmatchedRec.path : UnmatchedRec → String
  | .noLabels p _ => p
  | .lowConf p _ _ _ _ _ => p

/-- The decision for one image in `match_images_to_products`: empty label
list gives the no-labels unmatched row; otherwise scan the inventory and
accept iff `best_score >= 1.0 and best_match is not None`. -/
def matchOne (inv : List Product) (e : String × List DetectedLabel) :
    MatchedRec ⊕ UnmatchedRec :=
  if e.2.isEmpty then .inr (.noLabels e.1 "No labels detected")
  else if h : (findBest e.2 inv).1 ≥ 1 ∧ (findBest e.2 inv).2.1.isSome then
    .inl ⟨e.1, ((findBest e.2 inv).2.1.get h.2).product_id,
      ((findBest e.2 inv).2.1.get h.2).name, (findBest e.2 inv).1,
      joinSep ", " (findBest e.2 inv).2.2⟩
  else
    .inr (.lowConf e.1 (Option.map Product.product_id (findBest e.2 inv).2.1)
      (Option.map Product.name (findBest e.2 inv).2.1) (findBest e.2 inv).1
      (joinSep ", " (findBest e.2 inv).2.2) "Low confidence match")

/-- One image of the outer loop of `match_images_to_products`: append its
decision to the matched or the unmatched list. -/
def mmStep (inv : List Product) (acc : List MatchedRec × List UnmatchedRec)
    (e : String × List DetectedLabel) : List MatchedRec × List UnmatchedRec :=
  match matchOne inv e with
  | .inl m => (acc.1 ++ [m], acc.2)
  | .inr u => (acc.1, acc.2 ++ [u])

/-- `match_images_to_products(image_labels, inventory_df)`: one decision per
image, appended to the matched or unmatched list in input order. The
Python dict of image labels is modelled as an association list. -/
def match_images_to_products (image_labels : List (String × List DetectedLabel))
    (inv : List Product) : List MatchedRec × List UnmatchedRec :=
  image_labels.foldl (mmStep inv) ([], [])

/-- A raw inventory row: each field is `some s` when the cell holds the
string `s`, and `none` when the column is absent or the cell is not a
string (NaN, numbers). -/
structure RawRow where
  product_id : Option String
  name : Option String
  category : Option String
  description : Option String
  color : Option String
  material : Option String
  size : Option String
deriving DecidableEq

/-- `create_search_terms(row)` from `app1.py`: the name when it is a string,
then each of the five optional fields when present as a string, joined by
single spaces. -/
def create_search_terms (row : RawRow) : String :=
  let terms : List String :=
    (match row.name with | some s => [s] | none => [])
    ++ (match row.category with | some s => [s] | none => [])
    ++ (match row.description with | some s => [s] | none => [])
    ++ (match row.color with | some s => [s] | none => [])
    ++ (match row.material with | some s => [s] | none => [])
    ++ (match row.size with | some s => [s] | none => [])
  joinSep " " terms

/-- `process_inventory`: raise unless the `product_id` and `name` columns
exist, then add the derived `search_terms` column to every row. Row
contents are never inspected by the check. -/
def process_inventory (columns : List String) (rows : List RawRow) :
    Except String (List (RawRow × String)) :=
  if !columns.contains "product_id" then
    .error "Required column product_id not found in inventory"
  else if !columns.contains "name" then
    .error "Required column name not found in inventory"
  else
    .ok (rows.map (fun r => (r, create_search_terms r)))

/-- `detect_labels_for_image`: a failing labeling call (modelled as `none`)
is caught and yields the empty label list. -/
def detect_labels_for_image (src : String → Option (List DetectedLabel))
    (p : String) : List DetectedLabel :=
  (src p).getD []

/-- `process_image_batch`: label each path of one batch sequentially,
recording every path with its (possibly empty) label list. -/
def process_image_batch (src : String → Option (List DetectedLabel))
    (paths : List String) : List (String × List DetectedLabel) :=
  paths.map (fun p => (p, detect_labels_for_image src p))

/-- Fuel-indexed batching loop: take `n` elements per step. With `0 < n`
and fuel at least the list length this is the Python slice loop
`image_paths[i:i+batch_size]` for `i in range(0, len, batch_size)`. -/
def chunksGo (n : ℕ) : ℕ → List α → List (List α)
  | _, [] => []
  | 0, _ :: _ => []
  | fuel + 1, x :: xs => ((x :: xs).take n) :: chunksGo n fuel ((x :: xs).drop n)

/-- Partition a list into contiguous chunks of size `n` (last one shorter). -/
def chunksOf (n : ℕ) (l : List α) : List (List α) := chunksGo n l.length l

/-- Recognized image extensions check of `process_images_parallel`:
`filename.lower().endswith((".png", ".jpg", ".jpeg", ".webp"))`. -/
def hasImageExt (f : String) : Bool :=
  [".png", ".jpg", ".jpeg", ".webp"].any (fun e => endsWithStr e (lowerStr f))

/-- `process_images_parallel`: filter the folder listing to recognized image
files, raise when none remain, else label every batch and merge the
per-batch results (the thread pool merge is order-preserving and
lossless, modelled as the concatenation of the per-batch lists). -/
def process_images_parallel (src : String → Option (List DetectedLabel))
    (image_folder : String) (files : List String) (batch_size : ℕ) :
    Except String (List (String × List DetectedLabel)) :=
  let image_paths := files.filter hasImageExt
  if image_paths.isEmpty then
    .error ("No images found in " ++ image_folder)
  else
    .ok ((chunksOf batch_size image_paths).map (process_image_batch src)).flatten

/-- The qualifying words of a lowered label name against an already-lowered
search text: whitespace-separated words longer than 3 characters occurring
as substrings. -/
def qualWords (st lname : String) : List String :=
  (pySplit lname).filter (fun w => 3 < w.length && containsSub w st)

/-- The scoring weight a label name earns against an already-lowered search
text: 1.5 when the lowered name is a substring, plus 0.5 per qualifying
word. -/
def labelWeight (st lname : String) : ℚ :=
  (if containsSub (lowerStr lname) st then (3/2 : ℚ) else 0)
    + ((qualWords st (lowerStr lname)).length : ℚ) * (1/2)

/-- The score contribution of one label against an already-lowered search
text. -/
def labelContrib (st : String) (lab : DetectedLabel) : ℚ :=
  (lab.confidence / 100) * labelWeight st lab.name

/-- The claimed scoring formula, written from the words of the claim: the
sum over labels of (confidence/100)*1.5 when the lower-cased label name
occurs as a substring of the lower-cased search text, plus
(confidence/100)*0.5 for each whitespace-separated word of the label name
longer than 3 characters occurring as a substring. -/
def specLabelScore (search_text : String) (lab : DetectedLabel) : ℚ :=
  (lab.confidence / 100) * (3/2)
      * (if containsSub (lowerStr lab.name) (lowerStr search_text) then 1 else 0)
    + (lab.confidence / 100) * (1/2)
      * ((qualWords (lowerStr search_text) (lowerStr lab.name)).length : ℚ)

/-- The claimed total score: the sum of the per-label claimed scores. -/
def specScore (labels : List DetectedLabel) (search_text : String) : ℚ :=
  (labels.map (specLabelScore search_text)).sum

/-- The derived search text as the claim describes it: lower-cased,
space-joined concatenation of the name and every optional field that is
present and non-empty. -/
def searchTextClaim (row : RawRow) : String :=
  lowerStr (joinSep " "
    ((match row.name with | some s => [s] | none => [])
      ++ ([row.category, row.description, row.color, row.material,
          row.size].filterMap id).filter (fun s => !s.isEmpty)))

/-- The derived search text as the code actually builds it, written from the
amended claim: space-joined concatenation, in original case, of the name
when it is a string and every optional field whose value is a string,
empty strings included. -/
def searchTextAmended (row : RawRow) : String :=
  joinSep " " (row.name.toList
    ++ [row.category, row.description, row.color, row.material,
        row.size].filterMap id)

/-- The labeling-then-matching portion of `main`: matching runs only when
the labeling stage succeeded. -/
def run_pipeline (src : String → Option (List DetectedLabel))
    (image_folder : String) (files : List String) (inv : List Product)
    (batch_size : ℕ) : Except String (List MatchedRec × List UnmatchedRec) :=
  match process_images_parallel src image_folder files batch_size with
  | .error e => .error e
  | .ok image_labels => .ok (match_images_to_products image_labels inv)

/-! ## Lemmas about the scoring engine -/

/-- Folding the partial-word rule over a word list adds half the confidence
once per qualifying word. -/
lemma foldl_scoreWordsStep_fst (st : String) (conf : ℚ) (lname : String) :
    ∀ (ws : List String) (a : ℚ × List String),
      (ws.foldl (scoreWordsStep st conf lname) a).1
        = a.1 + ((ws.filter (fun w => 3 < w.length && containsSub w st)).length : ℚ)
            * (conf * (1/2)) := by
  intro ws
  induction ws with
  | nil => intro a; simp
  | cons w ws ih =>
    intro a
    by_cases h : (3 < w.length && containsSub w st) = true
    · simp only [List.foldl_cons, List.filter_cons, h, if_pos, scoreWordsStep, ih,
        List.length_cons]
      push_cast
      ring
    · simp only [List.foldl_cons, List.filter_cons, h, if_neg, scoreWordsStep, ih]
      simp [h]

/-- One label adds exactly its contribution to the running score. -/
lemma scoreStep_fst (st : String) (acc : ℚ × List String) (lab : DetectedLabel) :
    (scoreStep st acc lab).1 = acc.1 + labelContrib st lab := by
  unfold scoreStep labelContrib labelWeight qualWords
  rw [foldl_scoreWordsStep_fst]
  by_cases h : containsSub (lowerStr lab.name) st = true
  · simp only [h, if_pos]
    ring
  · simp only [h, Bool.false_eq_true, if_neg, if_false]
    ring

/-- The accumulated score of the label fold is the initial score plus the
sum of the per-label contributions. -/
lemma foldl_scoreStep_fst (st : String) :
    ∀ (l : List DetectedLabel) (a : ℚ × List String),
      (l.foldl (scoreStep st) a).1 = a.1 + (l.map (labelContrib st)).sum := by
  intro l
  induction l with
  | nil => intro a; simp
  | cons x l ih =>
    intro a
    simp only [List.foldl_cons, List.map_cons, List.sum_cons, ih, scoreStep_fst]
    ring

/-- The score returned by `calculate_match_score` is the sum of the
per-label contributions against the lowered search text. -/
lemma calculate_match_score_fst (labels : List DetectedLabel) (s : String) :
    (calculate_match_score labels s).1
      = (labels.map (labelContrib (lowerStr s))).sum := by
  unfold calculate_match_score
  rw [foldl_scoreStep_fst]
  simp

/-- The per-label claimed score coincides with the contribution the code
computes. -/
lemma specLabelScore_eq_labelContrib (s : String) (lab : DetectedLabel) :
    specLabelScore s lab = labelContrib (lowerStr s) lab := by
  unfold specLabelScore labelContrib labelWeight
  by_cases h : containsSub (lowerStr lab.name) (lowerStr s) = true
  · simp only [h, if_pos]
    ring
  · simp only [h, Bool.false_eq_true, if_neg, if_false]
    ring

/-- The empty character list is a prefix of the first entry of any tails
list, so the empty string is a substring of every string. -/
lemma tails_any_nil_isPrefixOf (l : List Char) :
    (l.tails.any (fun t => (([] : List Char)).isPrefixOf t)) = true := by
  cases l <;> simp [List.tails, List.isPrefixOf]

/-- Python `"" in s` is always true. -/
lemma containsSub_empty (hay : String) : containsSub "" hay = true := by
  unfold containsSub
  exact tails_any_nil_isPrefixOf hay.data

lemma lowerStr_empty : lowerStr "" = "" := rfl

lemma pySplit_empty : pySplit "" = [] := rfl

/-- C1: the score of `calculate_match_score` equals the claimed sum over
labels of (confidence/100)*1.5 for an exact lowered-phrase substring match
plus (confidence/100)*0.5 per word of the label name longer than 3
characters occurring as a substring; the label list
`[("cumin seeds", 90.0)]` against search text
`"organic cumin seeds 200g pouch"` scores 2.25 = 9/4, and the image is
Matched at threshold 1.0. -/
theorem c1_scoring_formula_and_cumin_scenario :
    (∀ (labels : List DetectedLabel) (search_text : String),
        (calculate_match_score labels search_text).1 = specScore labels search_text)
    ∧ (calculate_match_score [⟨"cumin seeds", 90⟩]
        "organic cumin seeds 200g pouch").1 = 9/4
    ∧ matchOne [⟨"p1", "Cumin Seeds", "organic cumin seeds 200g pouch"⟩]
        ("img1.jpg", [⟨"cumin seeds", 90⟩])
      = .inl ⟨"img1.jpg", "p1", "Cumin Seeds", 9/4, "cumin seeds"⟩ := by
  refine ⟨?_, ?_, ?_⟩
  · intro labels st
    rw [calculate_match_score_fst]
    unfold specScore
    rw [show specLabelScore st = labelContrib (lowerStr st) from
      funext (specLabelScore_eq_labelContrib st)]
  · simp [calculate_match_score, scoreStep, scoreWordsStep, lowerStr,
      containsSub, pySplit, addWChar, String.length]
    norm_num
  · simp [matchOne, findBest, bestStep, calculate_match_score, scoreStep,
      scoreWordsStep, lowerStr, containsSub, pySplit, addWChar, joinSep,
      String.length]
    norm_num [joinSep]

/-- C8: the score is monotone in any one label confidence: with all other
inputs equal, raising the confidence of the label at a fixed position from
c1 to c2 (0 ≤ c1 ≤ c2 ≤ 100) cannot decrease the score. -/
theorem c8_score_monotone_in_confidence (st : String)
    (l1 l2 : List DetectedLabel) (nm : String) (c1 c2 : ℚ)
    (h0 : 0 ≤ c1) (h12 : c1 ≤ c2) (h100 : c2 ≤ 100) :
    (calculate_match_score (l1 ++ ⟨nm, c1⟩ :: l2) st).1
      ≤ (calculate_match_score (l1 ++ ⟨nm, c2⟩ :: l2) st).1 := by
  rw [calculate_match_score_fst, calculate_match_score_fst]
  simp only [List.map_append, List.map_cons, List.sum_append, List.sum_cons]
  have hw : 0 ≤ labelWeight (lowerStr st) nm := by
    unfold labelWeight
    have h1 : (0:ℚ) ≤ if containsSub (lowerStr nm) (lowerStr st) then (3/2:ℚ) else 0 := by
      split <;> norm_num
    have h2 : (0:ℚ) ≤ ((qualWords (lowerStr st) (lowerStr nm)).length : ℚ) * (1/2) := by
      positivity
    linarith
  have hc : labelContrib (lowerStr st) ⟨nm, c1⟩ ≤ labelContrib (lowerStr st) ⟨nm, c2⟩ := by
    unfold labelContrib
    apply mul_le_mul_of_nonneg_right _ hw
    linarith
  linarith

/-- C8 witness: raising one confidence from 50 to 90 at a concrete input. -/
theorem c8_score_monotone_in_confidence_witness :
    ((0:ℚ) ≤ 50 ∧ (50:ℚ) ≤ 90 ∧ (90:ℚ) ≤ 100)
    ∧ (calculate_match_score ([⟨"pouch", 80⟩] ++ ⟨"cumin", 50⟩ :: [])
        "organic cumin seeds").1
      ≤ (calculate_match_score ([⟨"pouch", 80⟩] ++ ⟨"cumin", 90⟩ :: [])
        "organic cumin seeds").1 :=
  ⟨⟨by decide, by decide, by decide⟩,
    c8_score_monotone_in_confidence "organic cumin seeds" [⟨"pouch", 80⟩] []
      "cumin" 50 90 (by decide) (by decide) (by decide)⟩

/-- C9: a label whose name is the empty string always fires the
exact-phrase rule, adding (confidence/100)*1.5 to every score and the
empty name to the matched list. -/
theorem c9_empty_label_name_always_scores (labels : List DetectedLabel)
    (st : String) (c : ℚ) :
    calculate_match_score (labels ++ [⟨"", c⟩]) st
      = ((calculate_match_score labels st).1 + (c / 100) * (3/2),
         (calculate_match_score labels st).2 ++ [""]) := by
  unfold calculate_match_score
  rw [List.foldl_append]
  simp only [List.foldl_cons, List.foldl_nil, scoreStep, lowerStr_empty,
    pySplit_empty, containsSub_empty, if_true]

/-- C3 counterexample: the row with name `"Cumin"` and category `""` gets
search terms `"Cumin "` from the code — original case, with the empty
field contributing a separator — while the claimed formula (lower-cased,
empty fields dropped) gives `"cumin"`. -/
theorem c3_counterexample_search_text_not_lowered :
    create_search_terms ⟨some "P1", some "Cumin", some "", none, none, none, none⟩
        = "Cumin "
    ∧ searchTextClaim ⟨some "P1", some "Cumin", some "", none, none, none, none⟩
        = "cumin"
    ∧ create_search_terms ⟨some "P1", some "Cumin", some "", none, none, none, none⟩
        ≠ searchTextClaim ⟨some "P1", some "Cumin", some "", none, none, none, none⟩ :=
  ⟨by decide, by decide, by decide⟩

/-- C3 amended: the derived search text is the space-joined concatenation,
in original case, of the name when it is a string and every configured
optional field whose value is a string, empty strings included; no
lower-casing happens at load time. -/
theorem c3_amended_search_text_formula (row : RawRow) :
    create_search_terms row = searchTextAmended row := by
  rcases row with ⟨pid, nm, f1, f2, f3, f4, f5⟩
  cases nm <;> cases f1 <;> cases f2 <;> cases f3 <;> cases f4 <;> cases f5 <;> rfl

/-- C4 counterexample: an inventory whose columns are present but whose only
row has empty `product_id` and `name` loads without error, against the
claimed per-row non-emptiness check. -/
theorem c4_counterexample_empty_row_accepted :
    process_inventory ["product_id", "name"]
        [⟨some "", some "", none, none, none, none, none⟩]
      = .ok [(⟨some "", some "", none, none, none, none, none⟩, "")]
    ∧ ¬ ∃ e, process_inventory ["product_id", "name"]
        [⟨some "", some "", none, none, none, none, none⟩] = .error e := by
  have hok : process_inventory ["product_id", "name"]
      [⟨some "", some "", none, none, none, none, none⟩]
    = .ok [(⟨some "", some "", none, none, none, none, none⟩, "")] := by rfl
  refine ⟨hok, ?_⟩
  rintro ⟨e, he⟩
  rw [hok] at he
  exact Except.noConfusion he

/-- C4 amended: inventory loading fails exactly when the `product_id` or
`name` column is absent; row contents are never inspected by the check. -/
theorem c4_amended_error_iff_column_missing (columns : List String)
    (rows : List RawRow) :
    (∃ e, process_inventory columns rows = .error e)
      ↔ ("product_id" ∉ columns ∨ "name" ∉ columns) := by
  unfold process_inventory
  by_cases h1 : "product_id" ∈ columns <;> by_cases h2 : "name" ∈ columns <;>
    simp [h1, h2]

/-! ## Lemmas about the matcher loop -/

/-- The matcher fold from any accumulator is the accumulator with the
from-empty results appended. -/
lemma foldl_mmStep_acc (inv : List Product) :
    ∀ (l : List (String × List DetectedLabel))
      (a : List MatchedRec × List UnmatchedRec),
      l.foldl (mmStep inv) a
        = (a.1 ++ (l.foldl (mmStep inv) ([], [])).1,
           a.2 ++ (l.foldl (mmStep inv) ([], [])).2) := by
  intro l
  induction l with
  | nil => intro a; simp
  | cons e l ih =>
    intro a
    simp only [List.foldl_cons]
    rw [ih (mmStep inv a e), ih (mmStep inv ([], []) e)]
    unfold mmStep
    cases matchOne inv e <;> simp

/-- A matched decision records the image path of its input entry. -/
lemma matchOne_inl_path (inv : List Product) (e : String × List DetectedLabel)
    (m : MatchedRec) (h : matchOne inv e = .inl m) : m.image_path = e.1 := by
  unfold matchOne at h
  split at h
  · exact Sum.noConfusion h
  · split at h
    · cases h
      rfl
    · exact Sum.noConfusion h

/-- An unmatched decision records the image path of its input entry. -/
lemma matchOne_inr_path (inv : List Product) (e : String × List DetectedLabel)
    (u : UnmatchedRec) (h : matchOne inv e = .inr u) : u.path = e.1 := by
  unfold matchOne at h
  split at h
  · cases h
    rfl
  · split at h
    · exact Sum.noConfusion h
    · cases h
      rfl

/-- Per image path, the matched and unmatched tables together hold exactly
as many rows as the input has entries with that path. -/
lemma mm_count (inv : List Product) (x : String) :
    ∀ (l : List (String × List DetectedLabel)),
      ((match_images_to_products l inv).1.map MatchedRec.image_path).count x
        + ((match_images_to_products l inv).2.map UnmatchedRec.path).count x
      = (l.map Prod.fst).count x := by
  intro l
  induction l with
  | nil => simp [match_images_to_products]
  | cons e l ih =>
    have hgo : match_images_to_products (e :: l) inv
        = ((mmStep inv ([], []) e).1 ++ (match_images_to_products l inv).1,
           (mmStep inv ([], []) e).2 ++ (match_images_to_products l inv).2) := by
      unfold match_images_to_products
      simp only [List.foldl_cons]
      exact foldl_mmStep_acc inv l (mmStep inv ([], []) e)
    rw [hgo]
    cases hm : matchOne inv e with
    | inl m =>
      have hstep : mmStep inv ([], []) e = ([m], []) := by
        unfold mmStep
        rw [hm]
        rfl
      have hpath : m.image_path = e.1 := matchOne_inl_path inv e m hm
      rw [hstep]
      simp only [List.map_append, List.map_cons, List.map_nil, List.count_append,
        List.count_cons, List.count_nil, hpath, List.nil_append]
      omega
    | inr u =>
      have hstep : mmStep inv ([], []) e = ([], [u]) := by
        unfold mmStep
        rw [hm]
        rfl
      have hpath : u.path = e.1 := matchOne_inr_path inv e u hm
      rw [hstep]
      simp only [List.map_append, List.map_cons, List.map_nil, List.count_append,
        List.count_cons, List.count_nil, hpath, List.nil_append]
      omega

/-- C5: when the image identifiers of the input label set are distinct (as
keys of a Python dict are), every identifier appears exactly once across
the matched and unmatched outputs together: its rows in the two tables
always total one. -/
theorem c5_exactly_one_decision_per_image
    (image_labels : List (String × List DetectedLabel)) (inv : List Product)
    (x : String) (hnd : (image_labels.map Prod.fst).Nodup)
    (hx : x ∈ image_labels.map Prod.fst) :
    ((match_images_to_products image_labels inv).1.map MatchedRec.image_path).count x
      + ((match_images_to_products image_labels inv).2.map UnmatchedRec.path).count x
      = 1 := by
  rw [mm_count]
  exact List.count_eq_one_of_mem hnd hx

/-- C5 witness: a one-image input with no labels yields exactly one decision
for that image. -/
theorem c5_exactly_one_decision_per_image_witness :
    (([("img1.png", ([] : List DetectedLabel))].map Prod.fst).Nodup
      ∧ "img1.png" ∈ [("img1.png", ([] : List DetectedLabel))].map Prod.fst)
    ∧ ((match_images_to_products [("img1.png", [])] []).1.map
        MatchedRec.image_path).count "img1.png"
      + ((match_images_to_products [("img1.png", [])] []).2.map
        UnmatchedRec.path).count "img1.png" = 1 :=
  ⟨⟨by decide, by decide⟩,
    c5_exactly_one_decision_per_image [("img1.png", [])] [] "img1.png"
      (by decide) (by decide)⟩

/-- The best-candidate fold keeps a non-negative running score and only ever
holds a candidate product when that score is strictly positive. -/
lemma foldl_bestStep_pos (labels : List DetectedLabel) :
    ∀ (l : List Product) (a : ℚ × Option Product × List String),
      (0 ≤ a.1 ∧ (a.2.1.isSome → 0 < a.1)) →
      (0 ≤ (l.foldl (bestStep labels) a).1
        ∧ ((l.foldl (bestStep labels) a).2.1.isSome
            → 0 < (l.foldl (bestStep labels) a).1)) := by
  intro l
  induction l with
  | nil => intro a ha; exact ha
  | cons p l ih =>
    intro a ha
    simp only [List.foldl_cons]
    apply ih
    unfold bestStep
    by_cases h : (calculate_match_score labels p.search_terms).1 > a.1
    · simp only [h, if_pos]
      constructor
      · linarith [ha.1]
      · intro _
        linarith [ha.1]
    · simp only [h, if_neg, if_false]
      exact ha

/-- A non-`None` best match implies a strictly positive best score. -/
lemma findBest_some_pos (labels : List DetectedLabel) (inv : List Product) :
    (findBest labels inv).2.1.isSome → 0 < (findBest labels inv).1 := by
  unfold findBest
  intro h
  exact (foldl_bestStep_pos labels inv (0, none, [])
    ⟨le_refl 0, by intro hs; cases hs⟩).2 h

/-- C2 counterexample: one image labeled `("box", 95.0)` against an
inventory with one product whose search text does not contain `"box"`:
the best score is 0, and the emitted unmatched row has `None` candidate
fields (reason `"Low confidence match"`), not a candidate product. -/
theorem c2_counterexample_zero_score_no_candidate :
    match_images_to_products [("img1.jpg", [⟨"box", 95⟩])]
        [⟨"p1", "Widget", "widget thing"⟩]
      = ([], [.lowConf "img1.jpg" none none 0 "" "Low confidence match"]) := by
  simp [match_images_to_products, mmStep, matchOne, findBest, bestStep,
    calculate_match_score, scoreStep, scoreWordsStep, lowerStr, containsSub,
    pySplit, addWChar, joinSep, String.length]

/-- C2 amended: an image with non-empty labels and best score below the
threshold yields an Unmatched row with reason `"Low confidence match"`
carrying the best candidate and score as tracked by the strict-increase
scan; since the scan starts from best score 0 with `None` and replaces
only on strict increase, a best score of 0 always comes with `None`
candidate fields — a candidate is carried only when the best score is
strictly positive. -/
theorem c2_low_confidence_candidate_only_if_positive (inv : List Product)
    (e : String × List DetectedLabel) (hne : e.2 ≠ [])
    (hlt : (findBest e.2 inv).1 < 1) :
    matchOne inv e
      = .inr (.lowConf e.1 (Option.map Product.product_id (findBest e.2 inv).2.1)
          (Option.map Product.name (findBest e.2 inv).2.1) (findBest e.2 inv).1
          (joinSep ", " (findBest e.2 inv).2.2) "Low confidence match")
    ∧ ((findBest e.2 inv).1 = 0 → (findBest e.2 inv).2.1 = none) := by
  constructor
  · unfold matchOne
    have h1 : ¬ (e.2.isEmpty = true) := by
      simp only [List.isEmpty_iff]
      exact hne
    have h2 : ¬ ((findBest e.2 inv).1 ≥ 1 ∧ (findBest e.2 inv).2.1.isSome = true) := by
      rintro ⟨hge, _⟩
      linarith
    rw [if_neg h1, dif_neg h2]
  · intro h0
    by_contra hs
    have hsome : (findBest e.2 inv).2.1.isSome := Option.isSome_iff_ne_none.mpr hs
    have := findBest_some_pos e.2 inv hsome
    rw [h0] at this
    exact lt_irrefl 0 this

/-- C2 witness: the amended theorem applied to the box-vs-widget input. -/
theorem c2_low_confidence_candidate_only_if_positive_witness :
    (("img1.jpg", [(⟨"box", 95⟩ : DetectedLabel)]).2 ≠ []
      ∧ (findBest [⟨"box", 95⟩] [⟨"p1", "Widget", "widget thing"⟩]).1 < 1)
    ∧ ((findBest [⟨"box", 95⟩] [⟨"p1", "Widget", "widget thing"⟩]).1 = 0
        → (findBest [⟨"box", 95⟩] [⟨"p1", "Widget", "widget thing"⟩]).2.1 = none) :=
  ⟨⟨by decide, by decide⟩,
    (c2_low_confidence_candidate_only_if_positive
      [⟨"p1", "Widget", "widget thing"⟩] ("img1.jpg", [⟨"box", 95⟩])
      (by decide) (by decide)).2⟩

/-- One scan step never decreases the running best score. -/
lemma bestStep_fst_le (labels : List DetectedLabel)
    (a : ℚ × Option Product × List String) (row : Product) :
    a.1 ≤ (bestStep labels a row).1 := by
  unfold bestStep
  by_cases h : (calculate_match_score labels row.search_terms).1 > a.1
  · simp only [h, if_pos]
    linarith
  · simp only [h, if_neg, if_false]
    exact le_refl _

/-- After a scan step, the running best score is at least the score of the
row just seen. -/
lemma bestStep_score_le (labels : List DetectedLabel)
    (a : ℚ × Option Product × List String) (row : Product) :
    (calculate_match_score labels row.search_terms).1 ≤ (bestStep labels a row).1 := by
  unfold bestStep
  by_cases h : (calculate_match_score labels row.search_terms).1 > a.1
  · simp only [h, if_pos]
    exact le_refl _
  · simp only [h, if_neg, if_false]
    linarith [not_lt.mp h]

/-- The running best score is monotone along the scan. -/
lemma foldl_bestStep_fst_mono (labels : List DetectedLabel) :
    ∀ (l : List Product) (a : ℚ × Option Product × List String),
      a.1 ≤ (l.foldl (bestStep labels) a).1 := by
  intro l
  induction l with
  | nil => intro a; exact le_refl _
  | cons p l ih =>
    intro a
    simp only [List.foldl_cons]
    exact le_trans (bestStep_fst_le labels a p) (ih (bestStep labels a p))

/-- A row whose score does not exceed the running best leaves the
accumulator unchanged (the strict greater-than comparison). -/
lemma bestStep_skip (labels : List DetectedLabel)
    (a : ℚ × Option Product × List String) (q : Product)
    (h : (calculate_match_score labels q.search_terms).1 ≤ a.1) :
    bestStep labels a q = a := by
  unfold bestStep
  rw [if_neg (not_lt.mpr h)]

/-- C7: ties keep the first-seen maximum. A later product whose score
equals that of an earlier product never displaces it: the scan result
with the tied later product present is identical to the scan result with
it removed, so inventory iteration order decides ties deterministically. -/
theorem c7_tie_keeps_first_seen_product (labels : List DetectedLabel)
    (l1 l2 l3 : List Product) (p q : Product)
    (hpq : (calculate_match_score labels q.search_terms).1
      = (calculate_match_score labels p.search_terms).1) :
    findBest labels (l1 ++ p :: (l2 ++ q :: l3))
      = findBest labels (l1 ++ p :: (l2 ++ l3)) := by
  unfold findBest
  rw [List.foldl_append, List.foldl_cons, List.foldl_append, List.foldl_cons,
    List.foldl_append, List.foldl_cons, List.foldl_append]
  have hq : (calculate_match_score labels q.search_terms).1
      ≤ (List.foldl (bestStep labels)
        (bestStep labels (List.foldl (bestStep labels) (0, none, []) l1) p) l2).1 := by
    rw [hpq]
    exact le_trans (bestStep_score_le labels _ p) (foldl_bestStep_fst_mono labels l2 _)
  rw [bestStep_skip labels _ q hq]

/-- C7 witness: two products with identical search text tie; removing the
later one does not change the scan result. -/
theorem c7_tie_keeps_first_seen_product_witness :
    ((calculate_match_score [⟨"pear", 100⟩] (⟨"p2", "B", "pear"⟩ : Product).search_terms).1
      = (calculate_match_score [⟨"pear", 100⟩] (⟨"p1", "A", "pear"⟩ : Product).search_terms).1)
    ∧ findBest [⟨"pear", 100⟩] ([] ++ ⟨"p1", "A", "pear"⟩ :: ([] ++ ⟨"p2", "B", "pear"⟩ :: []))
      = findBest [⟨"pear", 100⟩] ([] ++ ⟨"p1", "A", "pear"⟩ :: ([] ++ [])) :=
  ⟨rfl,
    c7_tie_keeps_first_seen_product [⟨"pear", 100⟩] [] [] []
      ⟨"p1", "A", "pear"⟩ ⟨"p2", "B", "pear"⟩ rfl⟩

/-! ## Lemmas about the batch dispatcher -/

lemma chunksGo_nil (n fuel : ℕ) : chunksGo (α := α) n fuel [] = [] := by
  cases fuel <;> rfl

/-- With positive batch size and enough fuel, the batches concatenate back
to the input list. -/
lemma chunksGo_flatten (n : ℕ) (hn : 0 < n) :
    ∀ (fuel : ℕ) (l : List α), l.length ≤ fuel → (chunksGo n fuel l).flatten = l := by
  intro fuel
  induction fuel with
  | zero =>
    intro l hl
    cases l with
    | nil => rfl
    | cons x xs => simp at hl
  | succ fuel ih =>
    intro l hl
    cases l with
    | nil => rfl
    | cons x xs =>
      show ((x :: xs).take n :: chunksGo n fuel ((x :: xs).drop n)).flatten = x :: xs
      rw [List.flatten_cons, ih]
      · exact List.take_append_drop n (x :: xs)
      · rw [List.length_drop]
        simp only [List.length_cons] at hl ⊢
        omega

/-- Every batch has at most `n` elements. -/
lemma chunksGo_length_le (n : ℕ) :
    ∀ (fuel : ℕ) (l : List α), ∀ c ∈ chunksGo n fuel l, c.length ≤ n := by
  intro fuel
  induction fuel with
  | zero =>
    intro l c hc
    cases l <;> simp [chunksGo] at hc
  | succ fuel ih =>
    intro l c hc
    cases l with
    | nil => simp [chunksGo] at hc
    | cons x xs =>
      rcases List.mem_cons.mp hc with h | h
      · rw [h, List.length_take]
        exact Nat.min_le_left _ _
      · exact ih _ c h

/-- Every batch except possibly the last has exactly `n` elements. -/
lemma chunksGo_getD_length (n : ℕ) (hn : 0 < n) :
    ∀ (fuel : ℕ) (l : List α) (i : ℕ), l.length ≤ fuel →
      i + 1 < (chunksGo n fuel l).length →
      ((chunksGo n fuel l).getD i []).length = n := by
  intro fuel
  induction fuel with
  | zero =>
    intro l i hl hi
    cases l with
    | nil => simp [chunksGo] at hi
    | cons x xs => simp at hl
  | succ fuel ih =>
    intro l i hl hi
    cases l with
    | nil => simp [chunksGo] at hi
    | cons x xs =>
      cases i with
      | zero =>
        simp only [chunksGo, List.length_cons] at hi ⊢
        have hrest : chunksGo n fuel ((x :: xs).drop n) ≠ [] := by
          intro h0
          rw [h0] at hi
          simp at hi
        have hdrop : (x :: xs).drop n ≠ [] := by
          intro h0
          rw [h0, chunksGo_nil] at hrest
          exact hrest rfl
        have h1 : 0 < ((x :: xs).drop n).length := List.length_pos.mpr hdrop
        rw [List.length_drop] at h1
        show ((x :: xs).take n).length = n
        rw [List.length_take]
        omega
      | succ i =>
        show ((chunksGo n fuel ((x :: xs).drop n)).getD i []).length = n
        apply ih
        · rw [List.length_drop]
          simp only [List.length_cons] at hl ⊢
          omega
        · simp only [chunksGo, List.length_cons] at hi
          omega

/-- C6: with a positive batch size, the dispatcher's batches are contiguous
(they concatenate back to the filtered image list), each batch has at
most `batch_size` images, every batch but possibly the last has exactly
`batch_size`, 45 images with batch size 20 give batches of 20, 20, 5,
the final label mapping lists every requested image exactly once in
order, and an image whose labeling call fails is mapped to an empty
label list. -/
theorem c6_batching_and_lossless_labeling
    (src : String → Option (List DetectedLabel)) (folder : String)
    (files : List String) (bs : ℕ) (hbs : 0 < bs) :
    (chunksOf bs (files.filter hasImageExt)).flatten = files.filter hasImageExt
    ∧ (∀ c ∈ chunksOf bs (files.filter hasImageExt), c.length ≤ bs)
    ∧ (∀ i, i + 1 < (chunksOf bs (files.filter hasImageExt)).length →
        ((chunksOf bs (files.filter hasImageExt)).getD i []).length = bs)
    ∧ (chunksOf 20 (List.range 45)).map List.length = [20, 20, 5]
    ∧ (files.filter hasImageExt ≠ [] →
        process_images_parallel src folder files bs
          = .ok ((files.filter hasImageExt).map
              (fun p => (p, detect_labels_for_image src p))))
    ∧ (∀ p, src p = none → detect_labels_for_image src p = []) := by
  refine ⟨chunksGo_flatten bs hbs _ _ (le_refl _),
    fun c hc => chunksGo_length_le bs _ _ c hc,
    fun i hi => chunksGo_getD_length bs hbs _ _ i (le_refl _) hi,
    by decide, ?_, ?_⟩
  · intro hne
    unfold process_images_parallel
    rw [if_neg (by simpa [List.isEmpty_iff] using hne)]
    congr 1
    unfold process_image_batch
    rw [← List.map_flatten]
    unfold chunksOf
    rw [chunksGo_flatten bs hbs _ _ (le_refl _)]
  · intro p hp
    unfold detect_labels_for_image
    rw [hp]
    rfl

/-- C6 witness: a one-file folder listing with an always-failing label
source and batch size 20. -/
theorem c6_batching_and_lossless_labeling_witness :
    0 < 20
    ∧ ((["a.png", "b.txt"].filter hasImageExt ≠ []) →
        process_images_parallel (fun _ => none) "imgs" ["a.png", "b.txt"] 20
          = .ok ((["a.png", "b.txt"].filter hasImageExt).map
              (fun p => (p, detect_labels_for_image (fun _ => none) p)))) :=
  ⟨by decide,
    (c6_batching_and_lossless_labeling (fun _ => none) "imgs" ["a.png", "b.txt"]
      20 (by decide)).2.2.2.2.1⟩

/-- C10: when no file in the folder listing has a recognized image
extension, the labeling stage reports the no-images error and the run
stops with that error before any matching output is produced. -/
theorem c10_no_recognized_images_aborts
    (src : String → Option (List DetectedLabel)) (folder : String)
    (files : List String) (inv : List Product) (bs : ℕ)
    (h : files.filter hasImageExt = []) :
    run_pipeline src folder files inv bs
      = .error ("No images found in " ++ folder) := by
  unfold run_pipeline process_images_parallel
  rw [h]
  rfl

/-- C10 witness: a listing with only a text file aborts with the no-images
error. -/
theorem c10_no_recognized_images_aborts_witness :
    (["notes.txt"].filter hasImageExt = [])
    ∧ run_pipeline (fun _ => none) "imgs" ["notes.txt"] [] 20
      = .error ("No images found in " ++ "imgs") :=
  ⟨by decide,
    c10_no_recognized_images_aborts (fun _ => none) "imgs" ["notes.txt"] [] 20
      (by decide)⟩
